import Mathlib

set_option maxRecDepth 100000

/-!
Verification development for the country-name harmonization subsystem of the
wage-equity data-warehouse ETL (text folding, alias table, canonical registry
builder, lookup-table builder, resolver), shallowly embedded from
`src/data/Normalizer.py` (`fold`, `ALIASES`, `is_israel`,
`build_dim_pays_from_wiid`, `build_country_lookup`, `smart_match_country`,
`load_wiid_country`).

Modelling conventions:
* Strings are lists of Unicode code points (`CL := List Nat`), matching
  Python's view of `str` as a sequence of code points.
* The Unicode helpers (`pyLower`, `nfkdChar`, `isCombiningMark`, `isWordChar`,
  `isSpaceChar`) model `str.lower`, `unicodedata.normalize("NFKD", .)`,
  `unicodedata.combining` and the regex classes `\w` / `\s` on the ASCII
  range plus the non-ASCII characters exercised in this development:
  an accented letter (U+00F4/U+00D4), non-ASCII word characters kept by
  `\w` (U+00DF, U+0111), and uncased symbols whose compatibility
  decompositions contain ASCII uppercase (U+2116, U+2103) — the latter
  matter because `fold` lowercases before decomposing, so its output is
  not uppercase-free.
* Pandas frames are lists of records; missing cells (NaN) are `Option.none`.
  `sort_values` is modelled by a deterministic stable sort (pandas' quicksort
  is unstable but deterministic; no claim here depends on tie order), and
  `groupby(...).first()` by per-column first non-missing value within each
  group, with group keys sorted ascending and missing-key rows dropped,
  exactly as pandas does.
* `difflib.get_close_matches(word, keys, n=1, cutoff=0.88)` is modelled by
  `getCloseMatches1`: `SequenceMatcher.ratio` similarity (total size of the
  recursively-found longest matching blocks), the 0.88 float cutoff compared
  exactly as the rational 22/25, best candidate selected by
  (ratio, key) just as `heapq.nlargest` orders the `(score, word)` pairs.
  The autojunk heuristic is modelled as off; it only affects sequences of
  200 or more characters.
-/

abbrev CL := List Nat

/-- Code points of a Lean string literal, for writing concrete inputs. -/
def cs (x : String) : CL := x.data.map Char.toNat

/-- Python regex class `\s` (ASCII range): space, tab, LF, VT, FF, CR. -/
def isSpaceChar (c : Nat) : Bool :=
  c == 32 || c == 9 || c == 10 || c == 11 || c == 12 || c == 13

/-- Python regex class `\w`: ASCII letters, digits and the underscore, plus
— since `\w` covers every Unicode word character — the non-ASCII letters
exercised in this development (U+00DF LATIN SMALL LETTER SHARP S and
U+0111 LATIN SMALL LETTER D WITH STROKE stand in for that class). -/
def isWordChar (c : Nat) : Bool :=
  (97 ≤ c && c ≤ 122) || (65 ≤ c && c ≤ 90) || (48 ≤ c && c ≤ 57) || c == 95 ||
    c == 0xDF || c == 0x111

/-- ASCII uppercase letter test (used to state the folding alphabet facts). -/
def isUpperAscii (c : Nat) : Bool := 65 ≤ c && c ≤ 90

/-- Model of `str.lower`: ASCII case mapping, plus the accented characters
used here (U+00D4 LATIN CAPITAL O WITH CIRCUMFLEX lowers to U+00F4). -/
def pyLower (c : Nat) : Nat :=
  if c == 0xD4 then 0xF4
  else if 65 ≤ c && c ≤ 90 then c + 32
  else c

/-- Model of NFKD decomposition for the characters used here: U+00F4
decomposes to `o` plus U+0302 COMBINING CIRCUMFLEX ACCENT, and — because
`fold` lowercases BEFORE decomposing — the uncased symbols U+2116 NUMERO
SIGN and U+2103 DEGREE CELSIUS survive `str.lower` and then decompose to
sequences containing ASCII uppercase letters (`No` and `°C`); other
modelled characters decompose to themselves. -/
def nfkdChar (c : Nat) : CL :=
  if c == 0xF4 then [0x6F, 0x302]
  else if c == 0x2116 then [0x4E, 0x6F]
  else if c == 0x2103 then [0xB0, 0x43]
  else [c]

/-- Combining-mark test (U+0300 to U+036F, the block used here). -/
def isCombiningMark (c : Nat) : Bool := 0x300 ≤ c && c ≤ 0x36F

/-- `re.sub(r"[^\w\s]", " ", s)` acting on one character. -/
def replaceChar (c : Nat) : Nat := if isWordChar c || isSpaceChar c then c else 32

/-- `re.sub(r"\s+", " ", s)`: each maximal run of whitespace becomes one space. -/
def collapseWs : CL → CL
  | [] => []
  | [c] => if isSpaceChar c then [32] else [c]
  | c :: d :: rest =>
    if isSpaceChar c && isSpaceChar d then collapseWs (d :: rest)
    else (if isSpaceChar c then 32 else c) :: collapseWs (d :: rest)

/-- Remove trailing whitespace. -/
def stripTrailWs : CL → CL
  | [] => []
  | c :: t =>
    if (stripTrailWs t).isEmpty then (if isSpaceChar c then [] else [c])
    else c :: stripTrailWs t

/-- `str.strip()`: remove leading and trailing whitespace. -/
def stripWs (l : CL) : CL := stripTrailWs (l.dropWhile isSpaceChar)

/-- `fold` from `Normalizer.py`: strip, lowercase, NFKD-decompose, drop
combining marks, replace every non-word non-space character by a space,
collapse whitespace runs and strip.  Null/NaN inputs are handled at the
`foldRaw` level. -/
def fold (l : CL) : CL :=
  stripWs (collapseWs ((((((l.dropWhile isSpaceChar
    |> stripTrailWs).map pyLower).map nfkdChar).flatten).filter
      (fun c => !isCombiningMark c)).map replaceChar))

/-- The `ALIASES` dict of `Normalizer.py`, in source (= iteration) order. -/
def ALIASES : List (CL × CL) :=
  [ (cs "cote d ivoire", cs "cote d\x27ivoire"),
    (cs "ivory coast", cs "cote d\x27ivoire"),
    (cs "viet nam", cs "vietnam"),
    (cs "russian federation", cs "russia"),
    (cs "bolivia plurinational state of", cs "bolivia"),
    (cs "bolivia plurinational state", cs "bolivia"),
    (cs "brunei darussalam", cs "brunei"),
    (cs "congo democratic republic of the", cs "democratic republic of the congo"),
    (cs "congo dem rep", cs "democratic republic of the congo"),
    (cs "congo republic of the", cs "congo"),
    (cs "iran islamic republic of", cs "iran"),
    (cs "lao people s democratic republic", cs "laos"),
    (cs "micronesia federated states of", cs "micronesia"),
    (cs "moldova republic of", cs "moldova"),
    (cs "korea republic of", cs "south korea"),
    (cs "korea democratic people s republic of", cs "north korea"),
    (cs "syrian arab republic", cs "syria"),
    (cs "tanzania united republic of", cs "tanzania"),
    (cs "united states of america", cs "united states"),
    (cs "eswatini", cs "swaziland"),
    (cs "cabo verde", cs "cape verde"),
    (cs "holy see", cs "vatican city"),
    (cs "myanmar", cs "burma") ]

/-- `ALIASES.get(k, k)`. -/
def aliasGet (k : CL) : CL :=
  match ALIASES.find? (fun kv => kv.1 == k) with
  | some kv => kv.2
  | none => k

/-- `needle` is a contiguous prefix of `hay`. -/
def startsWithL : CL → CL → Bool
  | _, [] => true
  | [], _ :: _ => false
  | h :: hs, n :: ns => h == n && startsWithL hs ns

/-- `needle in hay` for Python strings: contiguous-substring test. -/
def containsSub (hay needle : CL) : Bool :=
  match hay with
  | [] => needle.isEmpty
  | _ :: t => startsWithL hay needle || containsSub t needle

/-- `str.upper`, ASCII range. -/
def toUpperAscii (l : CL) : CL := l.map (fun c => if 97 ≤ c && c ≤ 122 then c - 32 else c)

/-- `is_israel` from `Normalizer.py`: ISO3 equals "ISR" (case-insensitively)
or the folded name contains the substring "israel".  In the contexts modelled
here the ISO3 argument is a present string, so the `pd.notna` guard is
always satisfied. -/
def is_israel (name : CL) (iso3 : CL) : Bool :=
  toUpperAscii iso3 == cs "ISR" || containsSub (fold name) (cs "israel")

/-- A row of the reference (WIID country) dataset, restricted to the columns
the registry builder consumes: `country`, `c3`, `region_wb`, `population`,
`year`.  The remaining descriptive columns of `Normalizer.py`
(`region_un`, `region_un_sub`, `incomegroup`, `gdp`) are handled by
pandas identically to `region_wb`/`population` and are omitted. -/
structure WiidRow where
  country : Option CL
  c3 : Option CL
  region_wb : Option CL
  population : Option Int
  year : Option Int
deriving DecidableEq

/-- A record of the built country dimension (the canonical Registry). -/
structure DimRec where
  country_name : CL
  iso3 : CL
  region_wb : Option CL
  population : Option Int
deriving DecidableEq

/-- A row of the country lookup table (a NameVariant). -/
structure LkRow where
  iso3 : CL
  country_name : CL
  name_fold : CL
deriving DecidableEq

/-- Strict lexicographic comparison of code-point lists, as Python and
pandas compare strings. -/
def lexLt : CL → CL → Bool
  | [], [] => false
  | [], _ :: _ => true
  | _ :: _, [] => false
  | a :: as, b :: bs => if a < b then true else if b < a then false else lexLt as bs

def lexGtCL (a b : CL) : Bool := lexLt b a

def cmpCL (a b : CL) : Ordering :=
  if lexLt a b then .lt else if lexLt b a then .gt else .eq

/-- Ascending comparison of an optional string column, missing values last
(`na_position="last"`). -/
def optCmpCL : Option CL → Option CL → Ordering
  | none, none => .eq
  | none, some _ => .gt
  | some _, none => .lt
  | some a, some b => cmpCL a b

/-- Descending comparison of the `year` column, missing values last. -/
def optCmpYearDesc : Option Int → Option Int → Ordering
  | none, none => .eq
  | none, some _ => .gt
  | some _, none => .lt
  | some a, some b => if b < a then .lt else if a < b then .gt else .eq

/-- `sort_values(["country","year"], ascending=[True, False])` key order. -/
def rowLeSort (a b : WiidRow) : Bool :=
  match optCmpCL a.country b.country with
  | .lt => true
  | .gt => false
  | .eq =>
    match optCmpYearDesc a.year b.year with
    | .lt => true
    | .gt => false
    | .eq => true

/-- Ascending order on `(country, c3)` group keys (`groupby` sorts keys). -/
def keyLe (a b : CL × CL) : Bool :=
  match cmpCL a.1 b.1 with
  | .lt => true
  | .gt => false
  | .eq =>
    match cmpCL a.2 b.2 with
    | .lt => true
    | .gt => false
    | .eq => true

def insertLe (le : α → α → Bool) (x : α) : List α → List α
  | [] => [x]
  | y :: ys => if le x y then x :: y :: ys else y :: insertLe le x ys

/-- Stable insertion sort (ties keep their original order). -/
def sortLe (le : α → α → Bool) : List α → List α
  | [] => []
  | x :: xs => insertLe le x (sortLe le xs)

def dedupByAux (key : α → β) [BEq β] : List β → List α → List α
  | _, [] => []
  | seen, x :: xs =>
    if seen.contains (key x) then dedupByAux key seen xs
    else x :: dedupByAux key (key x :: seen) xs

/-- `drop_duplicates` / `unique()`: keep the first occurrence of each key. -/
def dedupBy (key : α → β) [BEq β] (l : List α) : List α := dedupByAux key [] l

/-- First non-missing value of a column, scanning a group top-down
(`groupby(...).first()` semantics for one column). -/
def firstSome : List (Option α) → Option α
  | [] => none
  | some a :: _ => some a
  | none :: t => firstSome t

/-- The `(country, c3)` group key of a row, absent when either cell is
missing (pandas drops rows with a missing group key). -/
def rowKey (r : WiidRow) : Option (CL × CL) :=
  match r.country, r.c3 with
  | some n, some i => some (n, i)
  | _, _ => none

/-- The reference rows after `sort_values(["country","year"],
ascending=[True, False])`, keeping only rows with a present group key. -/
def validSorted (wiid : List WiidRow) : List WiidRow :=
  (sortLe rowLeSort wiid).filter (fun r => (rowKey r).isSome)

/-- The distinct `(country, c3)` group keys in ascending key order. -/
def keysOf (wiid : List WiidRow) : List (CL × CL) :=
  sortLe keyLe (dedupBy id ((validSorted wiid).filterMap rowKey))

/-- The rows of one `(country, c3)` group, in latest-year-first order. -/
def groupRows (wiid : List WiidRow) (k : CL × CL) : List WiidRow :=
  (validSorted wiid).filter (fun r => rowKey r == some k)

/-- The `groupby(["country","c3"]).first()` record of one group: the key
columns come from the key, every other column takes its first non-missing
value scanning the group latest-year-first. -/
def mkDimRec (wiid : List WiidRow) (k : CL × CL) : DimRec :=
  { country_name := k.1
    iso3 := k.2
    region_wb := firstSome ((groupRows wiid k).map (fun r => r.region_wb))
    population := firstSome ((groupRows wiid k).map (fun r => r.population)) }

/-- `build_dim_pays_from_wiid` from `Normalizer.py`: sort by country
ascending / year descending, group by `(country, c3)` taking per-column
first non-missing values, drop identities matched by `is_israel`,
de-duplicate by ISO3 keeping the first row, and sort by canonical name.
(`dropna(subset=["iso3"])` is subsumed: every group key has a present ISO3.) -/
def build_dim_pays_from_wiid (wiid : List WiidRow) : List DimRec :=
  sortLe (fun a b =>
      match cmpCL a.country_name b.country_name with
      | .lt => true
      | .gt => false
      | .eq => true)
    (dedupBy (fun d => d.iso3)
      (((keysOf wiid).map (mkDimRec wiid)).filter
        (fun d => !is_israel d.country_name d.iso3)))

/-- `load_wiid_country`: a missing reference file yields an empty frame. -/
def load_wiid_country (file : Option (List WiidRow)) : List WiidRow := file.getD []

/-- The single-word qualifier tokens of the stripped-form regex
`\b(republic|state|islamic|federation|democratic|people s)\b`; the two-word
alternative `people s` is handled separately in `stripQualWords`. -/
def QUAL_SINGLES : List CL :=
  [cs "republic", cs "state", cs "islamic", cs "federation", cs "democratic"]

/-- Whole-word removal of the qualifier tokens from a word list; on folded
names (single-space-separated word-character words) this is exactly the
regex substitution of `build_country_lookup`. -/
def stripQualWords : List CL → List CL
  | [] => []
  | [w] => if QUAL_SINGLES.contains w then [] else [w]
  | w :: s :: rest =>
    if w == cs "people" && s == cs "s" then stripQualWords rest
    else if QUAL_SINGLES.contains w then stripQualWords (s :: rest)
    else w :: stripQualWords (s :: rest)

/-- Split on spaces, dropping empty segments. -/
def splitWords (l : CL) : List CL :=
  (l.foldr (fun c acc =>
      if c == 32 then [] :: acc
      else
        match acc with
        | [] => [[c]]
        | w :: ws => (c :: w) :: ws) []).filter (fun w => !w.isEmpty)

/-- Join words with single spaces (the effect of the `\s+` collapse and
strip after the qualifier removal). -/
def joinWords : List CL → CL
  | [] => []
  | w :: ws =>
    match ws with
    | [] => w
    | _ :: _ => w ++ 32 :: joinWords ws

/-- The derived stripped form of a folded canonical name: remove the
qualifier tokens and re-collapse; registered only when non-empty and
different from the folded name itself. -/
def strippedForm (nf : CL) : Option CL :=
  let base := joinWords (stripQualWords (splitWords nf))
  if base.isEmpty || base == nf then none else some base

/-- `build_country_lookup` from `Normalizer.py`: canonical-name variants,
then derived stripped-name variants, then alias variants (aliases whose
canonical-folded target matches the identity's folded name), de-duplicated
by the `(name_fold, iso3)` pair keeping first occurrences. -/
def build_country_lookup (dim : List DimRec) : List LkRow :=
  dedupBy (fun r => (r.name_fold, r.iso3))
    ((dim.map (fun d =>
        { iso3 := d.iso3, country_name := d.country_name,
          name_fold := fold d.country_name : LkRow }))
      ++ ((dim.map (fun d =>
            { iso3 := d.iso3, country_name := d.country_name,
              name_fold := fold d.country_name : LkRow })).filterMap
           (fun r => (strippedForm r.name_fold).map
             (fun b => { iso3 := r.iso3, country_name := r.country_name,
                         name_fold := b : LkRow })))
      ++ ((dim.map (fun d =>
            ALIASES.filterMap (fun kv =>
              if kv.2 == fold d.country_name then
                some { iso3 := d.iso3, country_name := d.country_name,
                       name_fold := kv.1 : LkRow }
              else none))).flatten))

/-- Length of the longest common prefix. -/
def cpl : CL → CL → Nat
  | a :: as, b :: bs => if a == b then cpl as bs + 1 else 0
  | _, _ => 0

/-- `SequenceMatcher.find_longest_match` over whole sequences: the longest
matching contiguous block `(i, j, k)` with `a[i:i+k] == b[j:j+k]`, ties
broken by smallest `i` then smallest `j` (no junk: autojunk is inert below
200 characters). -/
def flm (a b : CL) : Nat × Nat × Nat :=
  (List.range a.length).foldl (fun best i =>
    (List.range b.length).foldl (fun best2 j =>
      let k := cpl (a.drop i) (b.drop j)
      if best2.2.2 < k then (i, j, k) else best2) best) (0, 0, 0)

/-- Total size of `SequenceMatcher.get_matching_blocks`: recursively take the
longest matching block and recurse on the pieces to its left and right.
The fuel `a.length + b.length` strictly exceeds the combined length at every
recursive call, so the computation never runs out. -/
def matchBlocksTotal : Nat → CL → CL → Nat
  | 0, _, _ => 0
  | fuel + 1, a, b =>
    let r := flm a b
    if r.2.2 == 0 then 0
    else
      r.2.2 + matchBlocksTotal fuel (a.take r.1) (b.take r.2.1)
        + matchBlocksTotal fuel (a.drop (r.1 + r.2.2)) (b.drop (r.2.1 + r.2.2))

/-- Total matched size `M` underlying `SequenceMatcher(None, x, word).ratio()
= 2*M / (len(x) + len(word))`. -/
def matchTotal (x word : CL) : Nat := matchBlocksTotal (x.length + word.length) x word

/-- The similarity ratio of candidate `x` against `word` as an exact rational
`p.1 / p.2`; both-empty sequences score `1.0`, as in `difflib`. -/
def scoreNum (word x : CL) : Nat × Nat :=
  let t := x.length + word.length
  if t = 0 then (1, 1) else (2 * matchTotal x word, t)

/-- `ratio >= 0.88`: the float comparison agrees with the exact rational
comparison against 22/25 for all ratios arising from these short sequences. -/
def passesCutoff (word x : CL) : Bool :=
  decide (22 * (scoreNum word x).2 ≤ 25 * (scoreNum word x).1)

/-- `x` ranks strictly higher than `y` among candidates for `word`: larger
ratio first, ties broken by the lexicographically larger key, exactly the
order `heapq.nlargest` puts on the `(score, word)` pairs. -/
def betterCand (word x y : CL) : Bool :=
  let px := scoreNum word x
  let py := scoreNum word y
  if px.1 * py.2 == py.1 * px.2 then lexGtCL x y
  else decide (py.1 * px.2 < px.1 * py.2)

/-- Running maximum of the cutoff-passing candidates. -/
def pickBest (word : CL) : List CL → Option CL → Option CL
  | [], acc => acc
  | x :: xs, none => pickBest word xs (some x)
  | x :: xs, some b => pickBest word xs (if betterCand word x b then some x else some b)

/-- `difflib.get_close_matches(word, choices, n=1, cutoff=0.88)` restricted
to its first result: the highest-ranked candidate whose ratio reaches the
cutoff, if any. -/
def getCloseMatches1 (word : CL) (choices : List CL) : Option CL :=
  pickBest word (choices.filter (passesCutoff word)) none

/-- The raw country-name argument of `smart_match_country`: a Python string,
`None`, or a float NaN (pandas' missing marker, which is truthy). -/
inductive RawName where
  | null : RawName
  | nan : RawName
  | str : CL → RawName
deriving DecidableEq

/-- Python truthiness of the raw name (`if not name: ...`): `None` and the
empty string are falsy; NaN is a truthy float. -/
def truthy : RawName → Bool
  | .null => false
  | .nan => true
  | .str s => !s.isEmpty

/-- `fold` lifted to raw inputs: `fold` maps `None` and NaN to the empty
string before any other processing. -/
def foldRaw : RawName → CL
  | .null => []
  | .nan => []
  | .str s => fold s

/-- `smart_match_country` from `Normalizer.py`: falsy guard, alias-or-folded
key, exact first-row lookup, then the 0.88 fuzzy fallback over the distinct
folded keys, returning the first row carrying the chosen key; the sentinel
`("", "")` otherwise.  (The inner `none` branch after a fuzzy hit is
unreachable: the chosen key is one of the table's keys.) -/
def smart_match_country (name : RawName) (lookup : List LkRow) : CL × CL :=
  if truthy name then
    let nf := aliasGet (foldRaw name)
    match lookup.find? (fun r => r.name_fold == nf) with
    | some row => (row.iso3, row.country_name)
    | none =>
      match getCloseMatches1 nf (dedupBy id (lookup.map (fun r => r.name_fold))) with
      | some best =>
        match lookup.find? (fun r => r.name_fold == best) with
        | some row => (row.iso3, row.country_name)
        | none => ([], [])
      | none => ([], [])
  else ([], [])

/-- Reference rows for the Congo collision scenario. -/
def wiidCongo : List WiidRow :=
  [ { country := some (cs "Congo"), c3 := some (cs "COG"),
      region_wb := none, population := none, year := some 2020 },
    { country := some (cs "Democratic Republic Congo"), c3 := some (cs "COD"),
      region_wb := none, population := none, year := some 2020 } ]

def lkCongo : List LkRow := build_country_lookup (build_dim_pays_from_wiid wiidCongo)

def wiidIran : List WiidRow :=
  [ { country := some (cs "Iran, Islamic Republic of"), c3 := some (cs "IRN"),
      region_wb := none, population := none, year := some 2020 } ]

def lkIran : List LkRow := build_country_lookup (build_dim_pays_from_wiid wiidIran)

def wiidGermany : List WiidRow :=
  [ { country := some (cs "Germany"), c3 := some (cs "DEU"),
      region_wb := none, population := none, year := some 2020 } ]

def lkGermany : List LkRow := build_country_lookup (build_dim_pays_from_wiid wiidGermany)

def wiidChile : List WiidRow :=
  [ { country := some (cs "Chile"), c3 := some (cs "CHL"),
      region_wb := none, population := none, year := some 2020 } ]

def wiidChad : List WiidRow :=
  [ { country := some (cs "Chad"), c3 := some (cs "TCD"),
      region_wb := none, population := none, year := some 2020 } ]

def lkChile : List LkRow := build_country_lookup (build_dim_pays_from_wiid wiidChile)

def lkChad : List LkRow := build_country_lookup (build_dim_pays_from_wiid wiidChad)

def wiidVietnam : List WiidRow :=
  [ { country := some (cs "Viet Nam"), c3 := some (cs "VNM"),
      region_wb := none, population := none, year := some 2020 },
    { country := some (cs "Vietnam"), c3 := some (cs "VNM"),
      region_wb := none, population := none, year := some 2019 } ]

def wiidTestland : List WiidRow :=
  [ { country := some (cs "Testland"), c3 := some (cs "TST"),
      region_wb := none, population := some 5, year := some 2020 },
    { country := some (cs "Testland"), c3 := some (cs "TST"),
      region_wb := some (cs "Europe"), population := some 4, year := some 2019 } ]

def wiidIsz : List WiidRow :=
  [ { country := some (cs "Iszrael"), c3 := some (cs "XZZ"),
      region_wb := none, population := none, year := some 2020 },
    { country := some (cs "Israel"), c3 := some (cs "ISR"),
      region_wb := none, population := none, year := some 2020 } ]

def wiidHash : List WiidRow :=
  [ { country := some (cs "#"), c3 := some (cs "XQZ"),
      region_wb := none, population := none, year := some 2020 } ]

def wiidEmptyName : List WiidRow :=
  [ { country := some [], c3 := some (cs "XYZ"),
      region_wb := none, population := none, year := some 2020 } ]

/-- `x` scores no higher than `y` against `word`: the exact-rational
comparison `ratio(x) ≤ ratio(y)` via cross-multiplication. -/
def scoreLeP (word x y : CL) : Prop :=
  (scoreNum word x).1 * (scoreNum word y).2 ≤ (scoreNum word y).1 * (scoreNum word x).2

/-- No two consecutive spaces. -/
def noDoubleSpace : CL → Bool
  | a :: b :: t => !(a == 32 && b == 32) && noDoubleSpace (b :: t)
  | _ => true

/-- Modelled from the spec's words: the output alphabet the spec claims for
`fold` — a lowercase (ASCII) letter, a digit, or a space. -/
def specLowerDigitSpace (c : Nat) : Bool :=
  (97 ≤ c && c ≤ 122) || (48 ≤ c && c ≤ 57) || c == 32

theorem mem_insertLe {le : α → α → Bool} {x a : α} {l : List α} :
    x ∈ insertLe le a l → x = a ∨ x ∈ l := by
  induction l with
  | nil => intro h; simpa [insertLe] using h
  | cons y ys ih =>
    intro h
    simp only [insertLe] at h
    split at h
    · rcases List.mem_cons.mp h with h | h
      · exact Or.inl h
      · exact Or.inr h
    · rcases List.mem_cons.mp h with h | h
      · exact Or.inr (by simp [h])
      · rcases ih h with h | h
        · exact Or.inl h
        · exact Or.inr (List.mem_cons_of_mem _ h)

theorem mem_sortLe {le : α → α → Bool} {x : α} {l : List α} :
    x ∈ sortLe le l → x ∈ l := by
  induction l with
  | nil => intro h; simpa [sortLe] using h
  | cons y ys ih =>
    intro h
    rcases mem_insertLe h with h | h
    · simp [h]
    · exact List.mem_cons_of_mem _ (ih h)

theorem mem_dedupByAux {key : α → β} [BEq β] {x : α} :
    ∀ {seen : List β} {l : List α}, x ∈ dedupByAux key seen l → x ∈ l := by
  intro seen l
  induction l generalizing seen with
  | nil => intro h; simpa [dedupByAux] using h
  | cons y ys ih =>
    intro h
    simp only [dedupByAux] at h
    split at h
    · exact List.mem_cons_of_mem _ (ih h)
    · rcases List.mem_cons.mp h with h | h
      · simp [h]
      · exact List.mem_cons_of_mem _ (ih h)

theorem mem_dedupBy {key : α → β} [BEq β] {x : α} {l : List α} :
    x ∈ dedupBy key l → x ∈ l := mem_dedupByAux

theorem find?_of_filter_cons {p : α → Bool} :
    ∀ {l : List α} {r : α} {rs : List α}, l.filter p = r :: rs → l.find? p = some r := by
  intro l
  induction l with
  | nil => intro r rs h; simp at h
  | cons a t ih =>
    intro r rs h
    by_cases ha : p a
    · rw [List.filter_cons_of_pos ha] at h
      rw [List.find?_cons_of_pos _ ha]
      exact congrArg some (List.cons.inj h).1
    · rw [List.filter_cons_of_neg (by simpa using ha)] at h
      rw [List.find?_cons_of_neg _ (by simpa using ha)]
      exact ih h

theorem filter_nil_of_none {p : α → Bool} {l : List α}
    (h : ∀ x ∈ l, p x = false) : l.filter p = [] := by
  rw [List.filter_eq_nil_iff]
  intro x hx
  simp [h x hx]

theorem foldl_keep {β : Type _} (init : β) (l : List α) :
    l.foldl (fun acc _ => acc) init = init := by
  induction l generalizing init with
  | nil => rfl
  | cons x xs ih => exact ih init

theorem smart_match_shape (name : RawName) (lookup : List LkRow) :
    smart_match_country name lookup = ([], []) ∨
      ∃ r ∈ lookup, smart_match_country name lookup = (r.iso3, r.country_name) := by
  simp only [smart_match_country]
  split
  · split
    · next row hfind =>
      exact Or.inr ⟨row, List.mem_of_find?_eq_some hfind, rfl⟩
    · split
      · split
        · next row hfind2 =>
          exact Or.inr ⟨row, List.mem_of_find?_eq_some hfind2, rfl⟩
        · exact Or.inl rfl
      · exact Or.inl rfl
  · exact Or.inl rfl

theorem lookup_row_from_dim {dim : List DimRec} {r : LkRow}
    (h : r ∈ build_country_lookup dim) :
    ∃ d ∈ dim, r.iso3 = d.iso3 ∧ r.country_name = d.country_name := by
  have h' := mem_dedupBy h
  rcases List.mem_append.mp h' with h'' | halias
  · rcases List.mem_append.mp h'' with hcanon | hstrip
    · rcases List.mem_map.mp hcanon with ⟨d, hd, he⟩
      exact ⟨d, hd, by rw [← he], by rw [← he]⟩
    · rcases List.mem_filterMap.mp hstrip with ⟨row, hrow, hsf⟩
      rcases List.mem_map.mp hrow with ⟨d, hd, he⟩
      rcases Option.map_eq_some'.mp hsf with ⟨b, _, hb⟩
      refine ⟨d, hd, ?_, ?_⟩
      · rw [← hb, ← he]
      · rw [← hb, ← he]
  · rcases List.mem_flatten.mp halias with ⟨inner, hinner, hrin⟩
    rcases List.mem_map.mp hinner with ⟨d, hd, he⟩
    rw [← he] at hrin
    rcases List.mem_filterMap.mp hrin with ⟨kv, _, hkv⟩
    by_cases hc : kv.2 == fold d.country_name
    · rw [if_pos hc] at hkv
      rcases Option.some.inj hkv with he'
      exact ⟨d, hd, by rw [← he'], by rw [← he']⟩
    · rw [if_neg hc] at hkv
      exact absurd hkv (by simp)

theorem dim_rec_from_key {wiid : List WiidRow} {d : DimRec}
    (h : d ∈ build_dim_pays_from_wiid wiid) :
    ∃ k ∈ keysOf wiid, d = mkDimRec wiid k ∧ is_israel d.country_name d.iso3 = false := by
  have h1 := mem_sortLe h
  have h2 := mem_dedupBy h1
  have h3 := List.mem_filter.mp h2
  rcases List.mem_map.mp h3.1 with ⟨k, hk, he⟩
  refine ⟨k, hk, he.symm, ?_⟩
  have := h3.2
  simpa using this

theorem dim_not_israel {wiid : List WiidRow} {d : DimRec}
    (h : d ∈ build_dim_pays_from_wiid wiid) :
    is_israel d.country_name d.iso3 = false :=
  (dim_rec_from_key h).choose_spec.2.2

theorem key_from_row {wiid : List WiidRow} {k : CL × CL} (h : k ∈ keysOf wiid) :
    ∃ r ∈ wiid, r.country = some k.1 ∧ r.c3 = some k.2 := by
  have h1 := mem_sortLe h
  have h2 := mem_dedupBy h1
  rcases List.mem_filterMap.mp h2 with ⟨r, hr, hk⟩
  have hr1 := (List.mem_filter.mp hr).1
  have hr2 : r ∈ wiid := mem_sortLe hr1
  refine ⟨r, hr2, ?_⟩
  unfold rowKey at hk
  rcases hc : r.country with _ | n <;> rcases hc3 : r.c3 with _ | i <;>
    rw [hc, hc3] at hk <;> simp_all
  exact ⟨congrArg Prod.fst hk, congrArg Prod.snd hk⟩

theorem scoreNum_eq (word x : CL) :
    scoreNum word x =
      if x.length + word.length = 0 then (1, 1)
      else (2 * matchTotal x word, x.length + word.length) := rfl

theorem betterCand_eq (word x y : CL) :
    betterCand word x y =
      if (scoreNum word x).1 * (scoreNum word y).2
          = (scoreNum word y).1 * (scoreNum word x).2 then lexGtCL x y
      else decide ((scoreNum word y).1 * (scoreNum word x).2
          < (scoreNum word x).1 * (scoreNum word y).2) := by
  unfold betterCand
  by_cases he : (scoreNum word x).1 * (scoreNum word y).2
      = (scoreNum word y).1 * (scoreNum word x).2
  · simp [he]
  · simp [he]

theorem scoreDen_pos (word x : CL) : 0 < (scoreNum word x).2 := by
  rw [scoreNum_eq]
  split
  · exact Nat.one_pos
  · next h => exact Nat.pos_of_ne_zero h

theorem scoreLeP_refl (word x : CL) : scoreLeP word x x := Nat.le_refl _

theorem scoreLeP_trans {word x y z : CL}
    (hxy : scoreLeP word x y) (hyz : scoreLeP word y z) : scoreLeP word x z := by
  unfold scoreLeP at *
  have hy := scoreDen_pos word y
  have h1 : (scoreNum word x).1 * (scoreNum word z).2 * (scoreNum word y).2
      ≤ (scoreNum word z).1 * (scoreNum word x).2 * (scoreNum word y).2 := by
    calc (scoreNum word x).1 * (scoreNum word z).2 * (scoreNum word y).2
        = (scoreNum word x).1 * (scoreNum word y).2 * (scoreNum word z).2 := by ring
      _ ≤ (scoreNum word y).1 * (scoreNum word x).2 * (scoreNum word z).2 :=
          Nat.mul_le_mul_right _ hxy
      _ = (scoreNum word y).1 * (scoreNum word z).2 * (scoreNum word x).2 := by ring
      _ ≤ (scoreNum word z).1 * (scoreNum word y).2 * (scoreNum word x).2 :=
          Nat.mul_le_mul_right _ hyz
      _ = (scoreNum word z).1 * (scoreNum word x).2 * (scoreNum word y).2 := by ring
  exact Nat.le_of_mul_le_mul_right h1 hy

theorem betterCand_true_le {word x b : CL} (h : betterCand word x b = true) :
    scoreLeP word b x := by
  rw [betterCand_eq] at h
  unfold scoreLeP
  split at h
  · next he => omega
  · exact Nat.le_of_lt (of_decide_eq_true h)

theorem betterCand_false_le {word x b : CL} (h : betterCand word x b = false) :
    scoreLeP word x b := by
  rw [betterCand_eq] at h
  unfold scoreLeP
  split at h
  · next he => omega
  · next he =>
    have := of_decide_eq_false h
    omega

theorem pickBest_some_spec (word : CL) :
    ∀ (l : List CL) (acc : Option CL) (b : CL),
      pickBest word l acc = some b →
      (acc = some b ∨ b ∈ l) ∧ (∀ x, acc = some x → scoreLeP word x b) ∧
        (∀ x ∈ l, scoreLeP word x b) := by
  intro l
  induction l with
  | nil =>
    intro acc b h
    simp only [pickBest] at h
    refine ⟨Or.inl h, ?_, by simp⟩
    intro x hx
    rw [h] at hx
    rcases Option.some.inj hx with rfl
    exact scoreLeP_refl word b
  | cons x xs ih =>
    intro acc b h
    rcases acc with _ | a
    · simp only [pickBest] at h
      rcases ih (some x) b h with ⟨hmem, hacc, hall⟩
      refine ⟨?_, by simp, ?_⟩
      · rcases hmem with hmem | hmem
        · exact Or.inr (by simp [Option.some.inj hmem])
        · exact Or.inr (List.mem_cons_of_mem _ hmem)
      · intro y hy
        rcases List.mem_cons.mp hy with rfl | hy
        · exact hacc y rfl
        · exact hall y hy
    · simp only [pickBest] at h
      by_cases hb : betterCand word x a
      · rw [if_pos hb] at h
        rcases ih (some x) b h with ⟨hmem, hacc, hall⟩
        have hxb : scoreLeP word x b := hacc x rfl
        have hab : scoreLeP word a b := scoreLeP_trans (betterCand_true_le hb) hxb
        refine ⟨?_, ?_, ?_⟩
        · rcases hmem with hmem | hmem
          · exact Or.inr (by simp [Option.some.inj hmem])
          · exact Or.inr (List.mem_cons_of_mem _ hmem)
        · intro y hy
          rcases Option.some.inj hy with rfl
          exact hab
        · intro y hy
          rcases List.mem_cons.mp hy with rfl | hy
          · exact hxb
          · exact hall y hy
      · rw [if_neg hb] at h
        rcases ih (some a) b h with ⟨hmem, hacc, hall⟩
        have hab : scoreLeP word a b := hacc a rfl
        have hxb : scoreLeP word x b :=
          scoreLeP_trans (betterCand_false_le (by simpa using hb)) hab
        refine ⟨?_, ?_, ?_⟩
        · rcases hmem with hmem | hmem
          · exact Or.inl hmem
          · exact Or.inr (List.mem_cons_of_mem _ hmem)
        · intro y hy
          rcases Option.some.inj hy with rfl
          exact hab
        · intro y hy
          rcases List.mem_cons.mp hy with rfl | hy
          · exact hxb
          · exact hall y hy

theorem pickBest_none_spec (word : CL) :
    ∀ (l : List CL) (acc : Option CL),
      pickBest word l acc = none → acc = none ∧ l = [] := by
  intro l
  induction l with
  | nil => intro acc h; exact ⟨h, rfl⟩
  | cons x xs ih =>
    intro acc h
    rcases acc with _ | a
    · simp only [pickBest] at h
      have := (ih (some x) h).1
      simp at this
    · simp only [pickBest] at h
      by_cases hb : betterCand word x a
      · rw [if_pos hb] at h
        have := (ih (some x) h).1
        simp at this
      · rw [if_neg hb] at h
        have := (ih (some a) h).1
        simp at this

theorem scoreLeP_of_cutoff {word x b : CL} (hb : passesCutoff word b = true)
    (hx : passesCutoff word x = false) : scoreLeP word x b := by
  unfold passesCutoff at hb hx
  have hb' := of_decide_eq_true hb
  have hx' : ¬ 22 * (scoreNum word x).2 ≤ 25 * (scoreNum word x).1 :=
    of_decide_eq_false hx
  unfold scoreLeP
  have h1 : 25 * ((scoreNum word x).1 * (scoreNum word b).2)
      < 25 * ((scoreNum word b).1 * (scoreNum word x).2) := by
    calc 25 * ((scoreNum word x).1 * (scoreNum word b).2)
        = (25 * (scoreNum word x).1) * (scoreNum word b).2 := by ring
      _ < (22 * (scoreNum word x).2) * (scoreNum word b).2 := by
          have hp := scoreDen_pos word b
          have hlt : 25 * (scoreNum word x).1 < 22 * (scoreNum word x).2 := by omega
          exact Nat.mul_lt_mul_of_lt_of_le hlt (Nat.le_refl _) hp
      _ = (22 * (scoreNum word b).2) * (scoreNum word x).2 := by ring
      _ ≤ (25 * (scoreNum word b).1) * (scoreNum word x).2 :=
          Nat.mul_le_mul_right _ hb'
      _ = 25 * ((scoreNum word b).1 * (scoreNum word x).2) := by ring
  omega

theorem getCloseMatches1_some_spec {word : CL} {choices : List CL} {b : CL}
    (h : getCloseMatches1 word choices = some b) :
    b ∈ choices ∧ passesCutoff word b = true ∧ ∀ x ∈ choices, scoreLeP word x b := by
  unfold getCloseMatches1 at h
  rcases pickBest_some_spec word _ none b h with ⟨hmem, _, hall⟩
  rcases hmem with hmem | hmem
  · simp at hmem
  · have hbf := List.mem_filter.mp hmem
    refine ⟨hbf.1, hbf.2, ?_⟩
    intro x hx
    by_cases hp : passesCutoff word x
    · exact hall x (List.mem_filter.mpr ⟨hx, hp⟩)
    · exact scoreLeP_of_cutoff hbf.2 (by simpa using hp)

theorem getCloseMatches1_none_spec {word : CL} {choices : List CL}
    (h : getCloseMatches1 word choices = none) :
    ∀ x ∈ choices, passesCutoff word x = false := by
  unfold getCloseMatches1 at h
  have hnil := (pickBest_none_spec word _ none h).2
  intro x hx
  by_cases hp : passesCutoff word x
  · have : x ∈ choices.filter (passesCutoff word) := List.mem_filter.mpr ⟨hx, hp⟩
    rw [hnil] at this
    simp at this
  · simpa using hp

theorem getCloseMatches1_total {word : CL} {choices : List CL} {x : CL}
    (hx : x ∈ choices) (hp : passesCutoff word x = true) :
    ∃ b, getCloseMatches1 word choices = some b := by
  rcases hg : getCloseMatches1 word choices with _ | b
  · have := getCloseMatches1_none_spec hg x hx
    rw [hp] at this
    simp at this
  · exact ⟨b, rfl⟩

theorem matchBlocksTotal_nil_right (fuel : Nat) (a : CL) :
    matchBlocksTotal fuel a [] = 0 := by
  cases fuel with
  | zero => rfl
  | succ n =>
    have hflm : flm a [] = (0, 0, 0) := by
      unfold flm
      simp only [List.length_nil, List.range_zero, List.foldl_nil]
      exact foldl_keep (0, 0, 0) (List.range a.length)
    simp [matchBlocksTotal, hflm]

theorem matchTotal_nil_right (a : CL) : matchTotal a [] = 0 :=
  matchBlocksTotal_nil_right _ a

theorem passesCutoff_nil_word {x : CL} (hx : x ≠ []) :
    passesCutoff [] x = false := by
  have hlen : x.length ≠ 0 := by
    intro hc
    exact hx (List.eq_nil_of_length_eq_zero hc)
  have hs : scoreNum [] x = (2 * matchTotal x [], x.length + List.length ([] : CL)) := by
    rw [scoreNum_eq, if_neg (by simpa using hlen)]
  unfold passesCutoff
  rw [hs, matchTotal_nil_right]
  rw [decide_eq_false_iff_not]
  simp only [List.length_nil, Nat.add_zero, Nat.mul_zero]
  omega

theorem mem_stripTrailWs {c : Nat} : ∀ {l : CL}, c ∈ stripTrailWs l → c ∈ l := by
  intro l
  induction l with
  | nil => intro h; simpa [stripTrailWs] using h
  | cons a t ih =>
    intro h
    simp only [stripTrailWs] at h
    split at h
    · split at h
      · simp at h
      · simp only [List.mem_singleton] at h
        simp [h]
    · rcases List.mem_cons.mp h with heq | h
      · simp [heq]
      · exact List.mem_cons_of_mem _ (ih h)

theorem mem_stripWs {c : Nat} {l : CL} (h : c ∈ stripWs l) : c ∈ l :=
  (List.dropWhile_sublist isSpaceChar).mem (mem_stripTrailWs h)

theorem mem_collapseWs {c : Nat} : ∀ {l : CL}, c ∈ collapseWs l →
    c = 32 ∨ (c ∈ l ∧ isSpaceChar c = false) := by
  intro l
  induction l with
  | nil => intro h; simp [collapseWs] at h
  | cons a t ih =>
    intro h
    cases t with
    | nil =>
      simp only [collapseWs] at h
      split at h
      · exact Or.inl (by simpa using h)
      · next hns =>
        simp only [List.mem_singleton] at h
        subst h
        exact Or.inr ⟨by simp, by simpa using hns⟩
    | cons d rest =>
      simp only [collapseWs] at h
      split at h
      · rcases ih h with h | ⟨hm, hns⟩
        · exact Or.inl h
        · exact Or.inr ⟨List.mem_cons_of_mem _ hm, hns⟩
      · rcases List.mem_cons.mp h with heq | h
        · by_cases ha : isSpaceChar a
          · rw [if_pos ha] at heq
            exact Or.inl heq
          · rw [if_neg ha] at heq
            subst heq
            exact Or.inr ⟨by simp, by simpa using ha⟩
        · rcases ih h with h | ⟨hm, hns⟩
          · exact Or.inl h
          · exact Or.inr ⟨List.mem_cons_of_mem _ hm, hns⟩

theorem fold_alphabet {l : CL} {c : Nat} (h : c ∈ fold l) :
    isWordChar c = true ∨ c = 32 := by
  unfold fold at h
  rcases mem_collapseWs (mem_stripWs h) with h1 | ⟨h1, hns⟩
  · exact Or.inr h1
  · rcases List.mem_map.mp h1 with ⟨d, _, hrep⟩
    by_cases hw : (isWordChar d || isSpaceChar d) = true
    · have hc : c = d := by
        rw [← hrep]
        unfold replaceChar
        rw [if_pos hw]
      subst hc
      rw [Bool.or_eq_true] at hw
      rcases hw with hword | hsp
      · exact Or.inl hword
      · rw [hsp] at hns
        simp at hns
    · have hc : c = 32 := by
        rw [← hrep]
        unfold replaceChar
        rw [if_neg hw]
      exact Or.inr hc

theorem noDouble_tail {a : Nat} {t : CL} (h : noDoubleSpace (a :: t) = true) :
    noDoubleSpace t = true := by
  cases t with
  | nil => rfl
  | cons b t' =>
    simp only [noDoubleSpace, Bool.and_eq_true] at h
    exact h.2

theorem noDouble_cons {h : Nat} {X : CL} (hX : noDoubleSpace X = true)
    (hh : h = 32 → X.head? ≠ some 32) : noDoubleSpace (h :: X) = true := by
  cases X with
  | nil => rfl
  | cons b t =>
    simp only [noDoubleSpace]
    rw [hX, Bool.and_true]
    by_cases h32 : h = 32
    · have hb : b ≠ 32 := by
        intro hb
        exact hh h32 (by simp [hb])
      simp [h32, hb]
    · simp [h32]

theorem collapseWs_head_nonspace {d : Nat} {rest : CL} (hd : isSpaceChar d = false) :
    (collapseWs (d :: rest)).head? = some d := by
  cases rest with
  | nil => simp [collapseWs, hd]
  | cons e rest' => simp [collapseWs, hd]

theorem noDouble_collapseWs : ∀ (l : CL), noDoubleSpace (collapseWs l) = true := by
  intro l
  induction l with
  | nil => rfl
  | cons a t ih =>
    cases t with
    | nil =>
      simp only [collapseWs]
      split <;> rfl
    | cons d rest =>
      simp only [collapseWs]
      split
      · exact ih
      · next hsp =>
        apply noDouble_cons ih
        intro h32
        by_cases ha : isSpaceChar a = true
        · have hd : isSpaceChar d = false := by
            rcases Bool.and_eq_false_iff.mp (Bool.not_eq_true _ ▸ hsp) with hf | hf
            · rw [ha] at hf
              simp at hf
            · exact hf
          rw [collapseWs_head_nonspace hd]
          intro hc
          have hd32 := Option.some.inj hc
          rw [hd32] at hd
          simp [isSpaceChar] at hd
        · rw [if_neg ha] at h32
          rw [h32] at ha
          simp [isSpaceChar] at ha

theorem noDouble_dropWhile {p : Nat → Bool} :
    ∀ {l : CL}, noDoubleSpace l = true → noDoubleSpace (l.dropWhile p) = true := by
  intro l
  induction l with
  | nil => intro h; simpa using h
  | cons a t ih =>
    intro h
    rw [List.dropWhile_cons]
    split
    · exact ih (noDouble_tail h)
    · exact h

theorem stripTrailWs_head {b r : Nat} {t rs : CL}
    (h : stripTrailWs (b :: t) = r :: rs) : r = b := by
  simp only [stripTrailWs] at h
  split at h
  · split at h
    · simp at h
    · exact (List.cons.inj h).1.symm
  · exact (List.cons.inj h).1.symm

theorem noDouble_stripTrail : ∀ {l : CL}, noDoubleSpace l = true →
    noDoubleSpace (stripTrailWs l) = true := by
  intro l
  induction l with
  | nil => intro h; exact h
  | cons a t ih =>
    intro h
    simp only [stripTrailWs]
    split
    · split <;> rfl
    · next hne =>
      apply noDouble_cons (ih (noDouble_tail h))
      intro ha32
      rcases hs : stripTrailWs t with _ | ⟨r, rs⟩
      · rw [hs] at hne
        simp at hne
      · cases t with
        | nil => simp [stripTrailWs] at hs
        | cons b t' =>
          have hrb := stripTrailWs_head hs
          subst hrb
          intro hc
          have hb := Option.some.inj hc
          simp only [noDoubleSpace, Bool.and_eq_true] at h
          rw [ha32, hb] at h
          simp at h

theorem noDouble_fold (l : CL) : noDoubleSpace (fold l) = true := by
  unfold fold stripWs
  exact noDouble_stripTrail (noDouble_dropWhile (noDouble_collapseWs _))

/-- Claim C1 (counterexample): with a registry holding "Congo" (COG) and
"Democratic Republic Congo" (COD), the folded key "congo" is registered
first for COG (canonical variant) and later for COD (derived stripped
variant); resolving "Congo" returns the earlier-registered target COG, so
the later-registered variant does not win on collision. -/
theorem c1_counterexample :
    (lkCongo.filter (fun r => r.name_fold == cs "congo")).map (fun r => r.iso3)
        = [cs "COG", cs "COD"] ∧
      smart_match_country (.str (cs "Congo")) lkCongo = (cs "COG", cs "Congo") ∧
      cs "COG" ≠ cs "COD" :=
  ⟨by decide, by decide, by decide⟩

/-- Claim C1 (amended): a folded key effectively maps to at most one identity
at resolution time, and on collision the EARLIEST-registered variant wins:
whenever the rows of the lookup table carrying the resolver key are
`r :: rs`, resolution returns `r`'s identity — under the construction order
(canonical variants, then stripped variants, then alias variants) a
colliding derived stripped form therefore shadows a later alias entry. -/
theorem c1_amended (name : RawName) (lookup : List LkRow) (r : LkRow) (rs : List LkRow)
    (ht : truthy name = true)
    (hf : lookup.filter (fun x => x.name_fold == aliasGet (foldRaw name)) = r :: rs) :
    smart_match_country name lookup = (r.iso3, r.country_name) := by
  have hfind := find?_of_filter_cons hf
  unfold smart_match_country
  rw [ht, if_pos rfl]
  simp only [hfind]

/-- Witness for C1 at the Congo registry. -/
theorem c1_witness :
    smart_match_country (.str (cs "Congo")) lkCongo = (cs "COG", cs "Congo") :=
  c1_amended (.str (cs "Congo")) lkCongo
    { iso3 := cs "COG", country_name := cs "Congo", name_fold := cs "congo" }
    [{ iso3 := cs "COD", country_name := cs "Democratic Republic Congo",
       name_fold := cs "congo" }]
    (by decide) (by decide)

/-- Claim C2 (counterexample): with the registry canonical name
"Iran, Islamic Republic of" (IRN), `resolve("Iran")` does not return IRN via
a stripped-form variant — it returns the unresolved sentinel. -/
theorem c2_counterexample :
    (build_dim_pays_from_wiid wiidIran).map (fun d => d.iso3) = [cs "IRN"] ∧
      smart_match_country (.str (cs "Iran")) lkIran = ([], []) ∧
      smart_match_country (.str (cs "Iran")) lkIran
          ≠ (cs "IRN", cs "Iran, Islamic Republic of") :=
  ⟨by decide, by decide, by decide⟩

/-- Claim C2 (amended): the stripped-form variant derived from
"iran islamic republic of" is "iran of" (the connective "of" is not one of
the qualifier tokens), which matches "iran" neither exactly nor within the
0.88 fuzzy cutoff; `resolve("Iran")` and
`resolve("Iran, Islamic Republic of")` (whose alias key "iran" has no
lookup entry) both return the unresolved sentinel, agreeing only on the
empty result, not through a stripped-form match. -/
theorem c2_amended :
    lkIran.map (fun r => r.name_fold)
        = [cs "iran islamic republic of", cs "iran of"] ∧
      strippedForm (cs "iran islamic republic of") = some (cs "iran of") ∧
      aliasGet (fold (cs "Iran, Islamic Republic of")) = cs "iran" ∧
      passesCutoff (cs "iran") (cs "iran of") = false ∧
      smart_match_country (.str (cs "Iran")) lkIran = ([], []) ∧
      smart_match_country (.str (cs "Iran, Islamic Republic of")) lkIran = ([], []) :=
  ⟨by decide, by decide, by decide, by decide, by decide, by decide⟩

/-- Claim C3: the fuzzy fallback accepts exactly the single best-scoring
candidate key and only when its similarity ratio is at least 0.88: a
returned candidate passes the cutoff and scores at least as high as every
other key (with the `nlargest` tie order); no candidate is returned exactly
when no key passes the cutoff; and whenever some key passes, one is
returned.  Concretely, the one-character typo "Germny" resolves to
Germany's identity, while "Chad" and "Chile" do not cross-resolve. -/
theorem c3_fuzzy_fallback :
    (∀ (word : CL) (choices : List CL) (b : CL),
        getCloseMatches1 word choices = some b →
          b ∈ choices ∧ passesCutoff word b = true ∧
            ∀ x ∈ choices, scoreLeP word x b) ∧
      (∀ (word : CL) (choices : List CL),
        getCloseMatches1 word choices = none →
          ∀ x ∈ choices, passesCutoff word x = false) ∧
      (∀ (word : CL) (choices : List CL) (x : CL),
        x ∈ choices → passesCutoff word x = true →
          ∃ b, getCloseMatches1 word choices = some b) ∧
      smart_match_country (.str (cs "Germny")) lkGermany = (cs "DEU", cs "Germany") ∧
      smart_match_country (.str (cs "Chad")) lkChile = ([], []) ∧
      smart_match_country (.str (cs "Chile")) lkChad = ([], []) := by
  refine ⟨?_, ?_, ?_, by decide, by decide, by decide⟩
  · intro word choices b h
    exact getCloseMatches1_some_spec h
  · intro word choices h
    exact getCloseMatches1_none_spec h
  · intro word choices x hx hp
    exact getCloseMatches1_total hx hp

/-- Witness for C3 at the Germany lookup key. -/
theorem c3_witness :
    (cs "germany") ∈ [cs "germany"] ∧
      passesCutoff (cs "germny") (cs "germany") = true ∧
      scoreLeP (cs "germny") (cs "germany") (cs "germany") := by
  have h := c3_fuzzy_fallback.1 (cs "germny") [cs "germany"] (cs "germany") (by decide)
  exact ⟨h.1, h.2.1, h.2.2 (cs "germany") h.1⟩

/-- Claim C4 (counterexample): grouping [("Testland","TST",region=missing,
pop=5,2020), ("Testland","TST",region="Europe",pop=4,2019)] produces a
registry record whose region comes from the OLDER 2019 row while its
population comes from the 2020 row — no single source row carries the
surviving record's attribute values, contradicting "the record carries the
attribute values of its group's most-recent-year source row". -/
theorem c4_counterexample :
    build_dim_pays_from_wiid wiidTestland
        = [{ country_name := cs "Testland", iso3 := cs "TST",
             region_wb := some (cs "Europe"), population := some 5 }] ∧
      (∀ r ∈ wiidTestland,
        ¬(r.region_wb = some (cs "Europe") ∧ r.population = some 5)) :=
  ⟨by decide, by decide⟩

/-- Claim C4 (amended): the builder groups rows by the `(name, ISO3)` pair
(rows with a missing name or ISO3 are dropped) and scans each group in
latest-year-first order, but each attribute column independently takes its
first non-missing value in that order (pandas `groupby(...).first()`): every
surviving record's key comes from an actual source row, and each attribute
equals the first non-missing value of its column over the record's group. -/
theorem c4_amended (wiid : List WiidRow) (d : DimRec)
    (h : d ∈ build_dim_pays_from_wiid wiid) :
    (∃ r ∈ wiid, r.country = some d.country_name ∧ r.c3 = some d.iso3) ∧
      d.region_wb = firstSome
        ((groupRows wiid (d.country_name, d.iso3)).map (fun r => r.region_wb)) ∧
      d.population = firstSome
        ((groupRows wiid (d.country_name, d.iso3)).map (fun r => r.population)) := by
  rcases dim_rec_from_key h with ⟨k, hk, hdk, _⟩
  rcases k with ⟨n, i⟩
  subst hdk
  refine ⟨?_, rfl, rfl⟩
  rcases key_from_row hk with ⟨r, hr, h1, h2⟩
  exact ⟨r, hr, h1, h2⟩

/-- Witness for C4 at the Testland reference rows. -/
theorem c4_witness :
    (∃ r ∈ wiidTestland,
        r.country = some (cs "Testland") ∧ r.c3 = some (cs "TST")) ∧
      (some (cs "Europe") : Option CL) = firstSome
        ((groupRows wiidTestland (cs "Testland", cs "TST")).map (fun r => r.region_wb)) ∧
      (some 5 : Option Int) = firstSome
        ((groupRows wiidTestland (cs "Testland", cs "TST")).map (fun r => r.population)) :=
  c4_amended wiidTestland
    { country_name := cs "Testland", iso3 := cs "TST",
      region_wb := some (cs "Europe"), population := some 5 }
    (by decide)

/-- Claim C5 (counterexample): the Israel row (ISO3 "ISR") is excluded from
the registry as claimed, but `resolve("Israel")` — a name folding to the
excluded identity — does not return the unresolved sentinel: it
fuzzy-matches the different, non-excluded identity "Iszrael" (XZZ). -/
theorem c5_counterexample :
    build_dim_pays_from_wiid wiidIsz
        = [{ country_name := cs "Iszrael", iso3 := cs "XZZ",
             region_wb := none, population := none }] ∧
      is_israel (cs "Israel") (cs "ISR") = true ∧
      fold (cs "Israel") = cs "israel" ∧
      smart_match_country (.str (cs "Israel"))
          (build_country_lookup (build_dim_pays_from_wiid wiidIsz))
          = (cs "XZZ", cs "Iszrael") ∧
      (cs "XZZ", cs "Iszrael") ≠ (([] : CL), ([] : CL)) :=
  ⟨by decide, by decide, by decide, by decide, by decide⟩

/-- Claim C5 (amended): every identity in the built Registry passes the
exclusion check (`is_israel` is false of it), and resolution never returns
an excluded identity — every non-sentinel result is the `(iso3, name)` of a
registry record with `is_israel` false; a name folding to an excluded
identity may however still fuzzy-resolve to a different, non-excluded
identity rather than returning the sentinel. -/
theorem c5_amended (wiid : List WiidRow) (name : RawName) :
    (∀ d ∈ build_dim_pays_from_wiid wiid,
        is_israel d.country_name d.iso3 = false) ∧
      (smart_match_country name
          (build_country_lookup (build_dim_pays_from_wiid wiid)) = ([], []) ∨
        ∃ d ∈ build_dim_pays_from_wiid wiid,
          smart_match_country name
              (build_country_lookup (build_dim_pays_from_wiid wiid))
              = (d.iso3, d.country_name) ∧
            is_israel d.country_name d.iso3 = false) := by
  constructor
  · intro d hd
    exact dim_not_israel hd
  · rcases smart_match_shape name
        (build_country_lookup (build_dim_pays_from_wiid wiid)) with h | ⟨r, hr, he⟩
    · exact Or.inl h
    · rcases lookup_row_from_dim hr with ⟨d, hd, h1, h2⟩
      refine Or.inr ⟨d, hd, ?_, dim_not_israel hd⟩
      rw [he, h1, h2]

/-- Witness for C5 at the Iszrael registry. -/
theorem c5_witness : is_israel (cs "Iszrael") (cs "XZZ") = false :=
  (c5_amended wiidIsz (.str (cs "Israel"))).1
    { country_name := cs "Iszrael", iso3 := cs "XZZ",
      region_wb := none, population := none }
    (by decide)

/-- Claim C6: from the reference rows [("Viet Nam","VNM",2020),
("Vietnam","VNM",2019)] the Registry holds exactly one identity, VNM with
canonical name "Viet Nam" (the latest-year row), and `resolve("vietnam")`
on the derived lookup table returns ("VNM", "Viet Nam"). -/
theorem c6_end_to_end :
    build_dim_pays_from_wiid wiidVietnam
        = [{ country_name := cs "Viet Nam", iso3 := cs "VNM",
             region_wb := none, population := none }] ∧
      smart_match_country (.str (cs "vietnam"))
          (build_country_lookup (build_dim_pays_from_wiid wiidVietnam))
          = (cs "VNM", cs "Viet Nam") :=
  ⟨by decide, by decide⟩

/-- Claim C7: a missing reference dataset yields an empty frame, an empty
Registry and an empty lookup table, and every subsequent resolution returns
the unresolved sentinel (totality of the embedded functions models
"without raising"). -/
theorem c7_empty_registry (name : RawName) :
    load_wiid_country none = [] ∧
      build_dim_pays_from_wiid (load_wiid_country none) = [] ∧
      build_country_lookup (build_dim_pays_from_wiid (load_wiid_country none)) = [] ∧
      smart_match_country name
          (build_country_lookup (build_dim_pays_from_wiid (load_wiid_country none)))
          = ([], []) := by
  refine ⟨rfl, by decide, by decide, ?_⟩
  cases name with
  | null => rfl
  | nan => rfl
  | str s => cases s <;> rfl

/-- Claim C8 (counterexample): a NaN input is truthy, so it slips past the
falsy guard; with a registry whose only name "#" folds to the empty string,
`resolve(NaN)` exact-matches that empty folded key and returns
("XQZ", "#") rather than the unresolved sentinel. -/
theorem c8_counterexample :
    truthy .nan = true ∧
      smart_match_country .nan
          (build_country_lookup (build_dim_pays_from_wiid wiidHash))
          = (cs "XQZ", cs "#") ∧
      (cs "XQZ", cs "#") ≠ (([] : CL), ([] : CL)) :=
  ⟨by decide, by decide, by decide⟩

/-- Claim C8 (amended): `resolve` returns the sentinel for the empty string
and for null inputs (both caught by the falsy guard) and never raises
(totality); a NaN input is NOT caught by the guard — it proceeds with the
empty folded key and returns the sentinel exactly when no lookup row has an
empty folded text. -/
theorem c8_amended :
    (∀ lookup : List LkRow, smart_match_country (.str (cs "")) lookup = ([], [])) ∧
      (∀ lookup : List LkRow, smart_match_country .null lookup = ([], [])) ∧
      (∀ lookup : List LkRow, (∀ r ∈ lookup, r.name_fold ≠ []) →
        smart_match_country .nan lookup = ([], [])) := by
  refine ⟨fun lookup => rfl, fun lookup => rfl, ?_⟩
  intro lookup hl
  have ha : aliasGet (foldRaw .nan) = ([] : CL) := by decide
  have hfind : lookup.find? (fun r => r.name_fold == aliasGet (foldRaw .nan)) = none := by
    apply List.find?_eq_none.mpr
    intro r hr
    rw [ha]
    simp only [beq_iff_eq]
    exact hl r hr
  have hclose : getCloseMatches1 (aliasGet (foldRaw .nan))
      (dedupBy id (lookup.map (fun r => r.name_fold))) = none := by
    rw [ha]
    unfold getCloseMatches1
    have hfil : (dedupBy id (lookup.map (fun r => r.name_fold))).filter
        (passesCutoff []) = [] := by
      apply filter_nil_of_none
      intro x hx
      rcases List.mem_map.mp (mem_dedupBy hx) with ⟨r, hr, hxe⟩
      apply passesCutoff_nil_word
      rw [← hxe]
      exact hl r hr
    rw [hfil]
    rfl
  unfold smart_match_country
  rw [if_pos (show truthy RawName.nan = true from rfl)]
  simp only [hfind, hclose]

/-- Witness for C8 at the Germany lookup. -/
theorem c8_witness : smart_match_country .nan lkGermany = ([], []) :=
  c8_amended.2.2 lkGermany (by decide)

/-- Claim C9 (counterexample): `fold("a_b") = "a_b"` — the underscore is a
word character (regex `\w`), not replaced by a space, so the output is not
made of lowercase letters, digits and spaces only. -/
theorem c9_counterexample :
    fold (cs "a_b") = cs "a_b" ∧
      (fold (cs "a_b")).all specLowerDigitSpace = false :=
  ⟨by decide, by decide⟩

/-- Claim C9 (amended): `fold` replaces every character that is not a word
character (regex `\w` — letter, digit, or underscore) or whitespace with a
space and collapses whitespace runs, so every character of `fold`'s output
is a word character or a single space; the output is NOT confined to
lowercase letters, digits and spaces: underscores survive, and because
lowercasing precedes NFKD decomposition, compatibility decompositions of
uncased characters emit ASCII uppercase letters — `fold` of U+2116 NUMERO
SIGN is "No" and `fold` of U+2103 DEGREE CELSIUS is "C".  "Côte d'Ivoire"
and "Cote-d-Ivoire" still fold identically to "cote d ivoire". -/
theorem c9_amended :
    (∀ (l : CL), ∀ c ∈ fold l, isWordChar c = true ∨ c = 32) ∧
      (∀ l : CL, noDoubleSpace (fold l) = true) ∧
      fold (cs "\u2116") = cs "No" ∧
      (78 : Nat) ∈ fold (cs "\u2116") ∧ isUpperAscii 78 = true ∧
      fold (cs "\u2103") = cs "C" ∧
      fold (cs "C\xF4te d\x27Ivoire") = cs "cote d ivoire" ∧
      fold (cs "Cote-d-Ivoire") = cs "cote d ivoire" :=
  ⟨fun _ _ hc => fold_alphabet hc, fun l => noDouble_fold l,
    by decide, by decide, by decide, by decide, by decide, by decide⟩

/-- Witness for C9 at a concrete folded character. -/
theorem c9_witness : isWordChar 97 = true ∨ (97 : Nat) = 32 :=
  c9_amended.1 (cs "abc") 97 (by decide)

/-- Claim C10 (counterexample): with a registry row whose country name is
the empty string, `resolve("#")` returns the non-empty ISO3 "XYZ" paired
with an EMPTY canonical name. -/
theorem c10_counterexample :
    smart_match_country (.str (cs "#"))
        (build_country_lookup (build_dim_pays_from_wiid wiidEmptyName))
        = (cs "XYZ", ([] : CL)) ∧
      cs "XYZ" ≠ ([] : CL) :=
  ⟨by decide, by decide⟩

/-- Claim C10 (amended): `resolve` returns either exactly the sentinel
`("", "")` or the `(iso3, canonical_name)` pair of a single lookup row —
never fields from two rows; and provided every lookup row has a non-empty
canonical name (as rows built from non-empty registry names do), it never
returns a non-empty ISO3 paired with an empty canonical name. -/
theorem c10_amended :
    (∀ (name : RawName) (lookup : List LkRow),
        smart_match_country name lookup = ([], []) ∨
          ∃ r ∈ lookup, smart_match_country name lookup = (r.iso3, r.country_name)) ∧
      (∀ (name : RawName) (lookup : List LkRow),
        (∀ r ∈ lookup, r.country_name ≠ []) →
          (smart_match_country name lookup).1 ≠ [] →
            (smart_match_country name lookup).2 ≠ []) := by
  constructor
  · exact smart_match_shape
  · intro name lookup hl h1
    rcases smart_match_shape name lookup with h | ⟨r, hr, he⟩
    · rw [h] at h1
      simp at h1
    · rw [he]
      exact hl r hr

/-- Witness for C10 at the Germany lookup. -/
theorem c10_witness :
    (smart_match_country (.str (cs "Germny")) lkGermany).2 ≠ ([] : CL) :=
  c10_amended.2 (.str (cs "Germny")) lkGermany (by decide) (by decide)
